import Mathlib

/-
Verification of deepcell/utils/fpn_utils.py.

The file under study builds, with the Keras functional API, a feature pyramid
network plus a semantic segmentation head on top of a convolutional backbone.
We give a shallow embedding: symbolic tensors are terms of an inductive type
whose constructors are exactly the layer applications the file performs, and
Python-level failures (NameError for an undefined free variable, IndexError,
ValueError, KeyError, AttributeError) are `Except` errors.  The functions of
the file are translated statement by statement; the two names the module
never binds (`backbone_dict`, read inside `__create_pyramid_features`, and
`get_pyramid_layer_outputs`, called by `FPNet`) become `Option`-typed inputs,
with `none` the resolution the module actually provides.
-/

namespace FpnUtils

/-- Python runtime errors that statements of fpn_utils.py can raise. -/
inductive PyError where
  | nameError (n : String)
  | indexError
  | valueError
  | keyError
  | attributeError
deriving DecidableEq, Repr

/-- Sequencing of fallible Python statements / expressions. -/
def ebind {e a b : Type} (x : Except e a) (f : a → Except e b) : Except e b :=
  match x with
  | Except.error err => Except.error err
  | Except.ok v => f v

/-- Python list indexing `l[i]` for a nonnegative index: IndexError out of range. -/
def listGet {a : Type} (l : List a) (i : Nat) : Except PyError a :=
  match l.drop i with
  | [] => Except.error PyError.indexError
  | x :: _ => Except.ok x

/-- Python list indexing `l[-1]`: the last element, IndexError on the empty list. -/
def listLast {a : Type} (l : List a) : Except PyError a :=
  match l.getLast? with
  | some x => Except.ok x
  | none => Except.error PyError.indexError

/-- Python list comprehension `[f x for x in l]`: evaluated left to right,
aborting at the first raised error. -/
def mapE {a b : Type} (f : a → Except PyError b) : List a → Except PyError (List b)
  | [] => Except.ok []
  | x :: xs => ebind (f x) fun y => ebind (mapE f xs) fun ys => Except.ok (y :: ys)

/-- ASCII decimal digit test.  Python's `\d` and `int()` also accept
non-ASCII Unicode decimal digits (e.g. ARABIC-INDIC digits), which this
predicate rejects; every statement quantifying over backbone names therefore
restricts them, through `wfName`, to ASCII strings, on which this model and
Python agree exactly. -/
def isDigitC (c : Char) : Bool := 48 ≤ c.toNat && c.toNat ≤ 57

/-- Value of an ASCII digit. -/
def digitVal (c : Char) : Nat := c.toNat - 48

/-- Whitespace stripped by Python's `int(str)` conversion. -/
def isWsC (c : Char) : Bool :=
  c.toNat = 32 || c.toNat = 9 || c.toNat = 10 || c.toNat = 13 || c.toNat = 11 || c.toNat = 12

/-- Numeric value of a digit string, most significant digit first. -/
def digitsVal (l : List Char) : Nat := l.foldl (fun a c => 10 * a + digitVal c) 0

/-- Remainder of a Python integer literal after its first digit: digits with
single underscores allowed between digits, accumulating the value. -/
def parseUGroups : List Char → Nat → Option Nat
  | [], acc => some acc
  | c :: cs, acc =>
    if isDigitC c then parseUGroups cs (10 * acc + digitVal c)
    else if c.toNat = 95 then
      match cs with
      | [] => none
      | d :: ds => if isDigitC d then parseUGroups ds (10 * acc + digitVal d) else none
    else none

/-- Unsigned part of a Python integer literal: at least one digit, then groups. -/
def parseUnsigned : List Char → Option Nat
  | [] => none
  | c :: cs => if isDigitC c then parseUGroups cs (digitVal c) else none

/-- Signed Python integer literal body (after whitespace stripping). -/
def pyIntCore (l : List Char) : Option Int :=
  match l with
  | [] => none
  | c :: cs =>
    if c.toNat = 43 then Option.map (fun n : Nat => (n : Int)) (parseUnsigned cs)
    else if c.toNat = 45 then Option.map (fun n : Nat => -(n : Int)) (parseUnsigned cs)
    else Option.map (fun n : Nat => (n : Int)) (parseUnsigned (c :: cs))

/-- Strip leading and trailing whitespace, as `int(str)` does. -/
def trimWs (l : List Char) : List Char :=
  ((l.dropWhile isWsC).reverse.dropWhile isWsC).reverse

/-- Python's `int(s)` on a string: ValueError when `s` is not an integer literal. -/
def pyInt (s : String) : Except PyError Int :=
  match pyIntCore (trimWs s.data) with
  | some v => Except.ok v
  | none => Except.error PyError.valueError

/-- Longest run of digits starting the list. -/
def takeDigits : List Char → List Char
  | [] => []
  | c :: cs => if isDigitC c then c :: takeDigits cs else []

/-- First maximal run of digits in a character list, when one exists. -/
def firstDigitRun : List Char → Option (List Char)
  | [] => none
  | c :: cs => if isDigitC c then some (c :: takeDigits cs) else firstDigitRun cs

/-- The expression `int(re.findall(r'\d+', s)[0])` used throughout the file:
value of the first digit run of `s`, IndexError when `s` has no digit.  Digits
are the ASCII fragment of Python's `\d` (see `isDigitC`); theorems about
arbitrary backbone names assume `wfName`, which confines them to ASCII. -/
def pyLevel (s : String) : Except PyError Nat :=
  match firstDigitRun s.data with
  | some ds => Except.ok (digitsVal ds)
  | none => Except.error PyError.indexError

/-- Symbolic tensors: one constructor per layer application performed by
fpn_utils.py.  Each constructor records the Python-level arguments of the
layer call (filter counts, kernel and stride pairs, padding, optional layer
name, optional data_format) and the symbolic input tensor(s).  `reshape`
records the tensor whose static shape supplies the target dimensions
(`input_target.shape[1].value`, `input_target.shape[2].value`) alongside the
reshaped tensor. -/
inductive Tensor where
  | input (shape : List Nat)
  | conv2D (filters : Nat) (kernel : Nat × Nat) (strides : Nat × Nat)
      (padding : String) (name : Option String) (data_format : Option String) (x : Tensor)
  | upsampleLike (name : Option String) (x template : Tensor)
  | add (name : Option String) (x y : Tensor)
  | upSampling2D (size : Nat × Nat) (x : Tensor)
  | activation (fn : String) (name : Option String) (x : Tensor)
  | reshape (shape_source : Tensor) (x : Tensor)
  | tensorProduct (units : Nat) (x : Tensor)
  | batchNormalization (axis : Int) (x : Tensor)
  | softmax (axis : Int) (x : Tensor)
  | imageNormalization2D (norm_method : String) (x : Tensor)
deriving DecidableEq, Repr

/-- Keras layer name attached at the head of a symbolic tensor, for the layer
kinds the file names explicitly. -/
def headName : Tensor → Option String
  | Tensor.conv2D _ _ _ _ name _ _ => name
  | Tensor.upsampleLike name _ _ => name
  | Tensor.add name _ _ => name
  | Tensor.activation _ name _ => name
  | _ => none

/-- Nesting depth of a symbolic tensor; every layer application increases it. -/
def Tensor.depth : Tensor → Nat
  | Tensor.input _ => 0
  | Tensor.conv2D _ _ _ _ _ _ x => x.depth + 1
  | Tensor.upsampleLike _ x t => Nat.max x.depth t.depth + 1
  | Tensor.add _ x y => Nat.max x.depth y.depth + 1
  | Tensor.upSampling2D _ x => x.depth + 1
  | Tensor.activation _ _ x => x.depth + 1
  | Tensor.reshape s x => Nat.max s.depth x.depth + 1
  | Tensor.tensorProduct _ x => x.depth + 1
  | Tensor.batchNormalization _ x => x.depth + 1
  | Tensor.softmax _ x => x.depth + 1
  | Tensor.imageNormalization2D _ x => x.depth + 1

/-- Kinds of layers appearing in a symbolic tensor. -/
inductive LayerKind where
  | input | conv2D | upsampleLike | add | upSampling2D | activation | reshape
  | tensorProduct | batchNormalization | softmax | imageNormalization2D
deriving DecidableEq, Repr

/-- Where a layer builder is imported from, per the import block of the file
(lines 34-47): `tensorflow.python.keras` for the framework's layers,
`deepcell.layers` for `UpsampleLike`, `TensorProduct` and
`ImageNormalization2D`. -/
inductive LayerSource where
  | framework | deepcell
deriving DecidableEq, Repr

/-- Import table of the file: which package provides each layer builder. -/
def layerSource : LayerKind → LayerSource
  | LayerKind.upsampleLike => LayerSource.deepcell
  | LayerKind.tensorProduct => LayerSource.deepcell
  | LayerKind.imageNormalization2D => LayerSource.deepcell
  | _ => LayerSource.framework

/-- All layer kinds occurring anywhere in a symbolic tensor. -/
def Tensor.kinds : Tensor → List LayerKind
  | Tensor.input _ => [LayerKind.input]
  | Tensor.conv2D _ _ _ _ _ _ x => LayerKind.conv2D :: x.kinds
  | Tensor.upsampleLike _ x t => LayerKind.upsampleLike :: (x.kinds ++ t.kinds)
  | Tensor.add _ x y => LayerKind.add :: (x.kinds ++ y.kinds)
  | Tensor.upSampling2D _ x => LayerKind.upSampling2D :: x.kinds
  | Tensor.activation _ _ x => LayerKind.activation :: x.kinds
  | Tensor.reshape s x => LayerKind.reshape :: (s.kinds ++ x.kinds)
  | Tensor.tensorProduct _ x => LayerKind.tensorProduct :: x.kinds
  | Tensor.batchNormalization _ x => LayerKind.batchNormalization :: x.kinds
  | Tensor.softmax _ x => LayerKind.softmax :: x.kinds
  | Tensor.imageNormalization2D _ x => LayerKind.imageNormalization2D :: x.kinds

/-- Pyramid level name `'P' + str(level)`. -/
def pname (level : Nat) : String := "P" ++ toString level

/-- Translation of `create_pyramid_level` (fpn_utils.py lines 50-88): 1x1 conv
on the backbone input, optional UpsampleLike of that conv output to the
template, optional Add of the conv output with `addition_input`, then a 3x3
conv; returns `(pyramid_final, pyramid_upsample)`.  In the source
`upsamplelike_input` and `addition_input` default to None, `level` to 5 and
`feature_size` to 256; callers here always pass all five arguments. -/
def create_pyramid_level (backbone_input : Tensor)
    (upsamplelike_input : Option Tensor) (addition_input : Option Tensor)
    (level : Nat) (feature_size : Nat) : Tensor × Option Tensor :=
  let reduced_name := "C" ++ toString level ++ "_reduced"
  let upsample_name := "P" ++ toString level ++ "_upsampled"
  let addition_name := "P" ++ toString level ++ "_merged"
  let final_name := "P" ++ toString level
  let pyramid := Tensor.conv2D feature_size (1, 1) (1, 1) "same" (some reduced_name) none backbone_input
  let pyramid_upsample :=
    match upsamplelike_input with
    | some u => some (Tensor.upsampleLike (some upsample_name) pyramid u)
    | none => none
  let pyramid2 :=
    match addition_input with
    | some a => Tensor.add (some addition_name) pyramid a
    | none => pyramid
  let pyramid_final := Tensor.conv2D feature_size (3, 3) (1, 1) "same" (some final_name) none pyramid2
  (pyramid_final, pyramid_upsample)

/-- Stable insertion used to model Python's stable `list.sort(key=...)`:
the new element goes after every element whose key is not larger. -/
def insertKeyed (p : Int × String) : List (Int × String) → List (Int × String)
  | [] => [p]
  | q :: qs => if p.1 < q.1 then p :: q :: qs else q :: insertKeyed p qs

/-- Stable sort by precomputed integer key, processing elements in list order. -/
def sortKeyed (l : List (Int × String)) : List (Int × String) :=
  l.foldl (fun acc p => insertKeyed p acc) []

/-- Python dict lookup `d[k]` on the modelled `backbone_dict`. -/
def dictGet (d : List (String × Tensor)) (k : String) : Except PyError Tensor :=
  match d.find? (fun p => p.1 == k) with
  | some p => Except.ok p.2
  | none => Except.error PyError.keyError

/-- Translation of fpn_utils.py lines 103-105: read the keys of
`backbone_dict`, sort them by `int(x[1:])` (Python computes each key value,
raising ValueError on a non-integer suffix, then sorts stably), and look each
name up in the dict. -/
def derive_backbone (d : List (String × Tensor)) : Except PyError (List String × List Tensor) :=
  let names0 := (d.map Prod.fst)
  ebind (mapE (fun n => Except.map (fun k => (k, n)) (pyInt (String.mk (n.data.drop 1)))) names0)
    fun keyed =>
  let bn := (sortKeyed keyed).map Prod.snd
  ebind (mapE (dictGet d) bn) fun bf =>
  Except.ok (bn, bf)

/-- Mutable loop state of `__create_pyramid_features`: the three lists the
loop appends to. -/
structure PyrState where
  names : List String
  finals : List Tensor
  upsamples : List (Option Tensor)

/-- Body of the loop of `__create_pyramid_features` (lines 115-142) at index
`i`: read the name and its level, append `'P' + str(level)`, pick the
upsample template and addition input by position (template from the next
backbone feature except at the top of the pyramid, addition from the last
upsample except at the bottom), call `create_pyramid_level` (with its default
`feature_size=256`, as the source call omits it) and append the results. -/
def pyramidLoopStep (bn : List String) (bf : List Tensor) (st : PyrState) (i : Nat) :
    Except PyError PyrState :=
  ebind (listGet bn i) fun N =>
  ebind (pyLevel N) fun level =>
  let p_name := pname level
  ebind (listGet bf i) fun backbone_input =>
  ebind (if i = 0 then
           ebind (listGet bf (i + 1)) fun u => Except.ok (some u, (none : Option Tensor))
         else if i = bn.length - 1 then
           ebind (listLast st.upsamples) fun a => Except.ok ((none : Option Tensor), a)
         else
           ebind (listGet bf (i + 1)) fun u =>
           ebind (listLast st.upsamples) fun a => Except.ok (some u, a)) fun ua =>
  let pr := create_pyramid_level backbone_input ua.1 ua.2 level 256
  Except.ok (PyrState.mk (st.names ++ [p_name]) (st.finals ++ [pr.1]) (st.upsamples ++ [pr.2]))

/-- The `for i in range(len(backbone_names))` loop, over an explicit index list. -/
def pyramidLoop (bn : List String) (bf : List Tensor) :
    List Nat → PyrState → Except PyError PyrState
  | [], st => Except.ok st
  | i :: is, st => ebind (pyramidLoopStep bn bf st i) fun st' => pyramidLoop bn bf is st'

/-- Translation of `__create_pyramid_features` (lines 91-171).  The body
ignores the `backbone_names` and `backbone_features` parameters: line 103
rebinds them from the free variable `backbone_dict`, which the module never
defines, so the first statement raises NameError unless that name resolves;
the resolution is passed here as an `Option`, `none` being what the module
provides.  After the loop the two extra levels P(max+1) and P(max+2) are
prepended and both lists reversed into ascending order. -/
def __create_pyramid_features (backbone_dict : Option (List (String × Tensor)))
    (backbone_names : List String) (backbone_features : List Tensor)
    (feature_size : Nat) : Except PyError (List String × List Tensor) :=
  match backbone_dict with
  | none => Except.error (PyError.nameError "backbone_dict")
  | some d =>
    ebind (derive_backbone d) fun bnbf =>
    let bn := bnbf.1.reverse
    let bf := bnbf.2.reverse
    ebind (pyramidLoop bn bf (List.range bn.length) (PyrState.mk [] [] [])) fun st =>
    ebind (listGet bn 0) fun N =>
    ebind (listGet bf 0) fun F =>
    ebind (pyLevel N) fun lvl =>
    let level1 := lvl + 1
    let pm2_name := pname level1
    let pm2 := Tensor.conv2D feature_size (3, 3) (2, 2) "same" (some pm2_name) none F
    let names1 := pm2_name :: st.names
    let finals1 := pm2 :: st.finals
    ebind (pyLevel N) fun lvl2 =>
    let level2 := lvl2 + 2
    let pm1_name := pname level2
    let pm1 := Tensor.conv2D feature_size (3, 3) (2, 2) "same" (some pm1_name) none
      (Tensor.activation "relu" (some (N ++ "_relu")) pm2)
    let names2 := pm1_name :: names1
    let finals2 := pm1 :: finals1
    Except.ok (names2.reverse, finals2.reverse)

/-- Body of the `for i in range(n_upsample)` loop of `semantic_upsample`
(lines 188-195): a 3x3 conv, then either an UpsampleLike to the target on the
last iteration when a target is given, or a 2x UpSampling2D. -/
def suStep (n_filters : Nat) (n_upsample : Int) (target : Option Tensor)
    (acc : Tensor) (i : Nat) : Tensor :=
  let c := Tensor.conv2D n_filters (3, 3) (1, 1) "same" none (some "channels_last") acc
  match target with
  | some t => if (i : Int) = n_upsample - 1 then Tensor.upsampleLike none c t
              else Tensor.upSampling2D (2, 2) c
  | none => Tensor.upSampling2D (2, 2) c

/-- Translation of `semantic_upsample` (lines 174-204).  `n_upsample` is a
Python int, so it can be negative, in which case `range(n_upsample)` is empty
and the `n_upsample == 0` branch is not taken either.  When `n_upsample` is 0
a single 3x3 conv (and an UpsampleLike when `target` is given) still runs. -/
def semantic_upsample (x : Tensor) (n_upsample : Int) (n_filters : Nat)
    (target : Option Tensor) : Tensor :=
  let x1 := (List.range n_upsample.toNat).foldl (suStep n_filters n_upsample target) x
  if n_upsample = 0 then
    let c := Tensor.conv2D n_filters (3, 3) (1, 1) "same" none (some "channels_last") x1
    match target with
    | some t => Tensor.upsampleLike none c t
    | none => c
  else x1

/-- Python attribute access `input_target.shape` on a possibly-None value:
AttributeError when the value is None. -/
def getAttrTensor : Option Tensor → Except PyError Tensor
  | none => Except.error PyError.attributeError
  | some t => Except.ok t

/-- Translation of `semantic_prediction` (lines 207-258).  `image_data_format`
models the framework configuration read through `K.image_data_format()`.
The semantic features are summed pairwise with Add, upsampled by
`min_level - target_level` rounds (`n_filters` is not forwarded: the source
calls `semantic_upsample` with its default 256), reshaped to the static
height and width of `input_target` (AttributeError when `input_target` is
None), then TensorProduct, BatchNormalization, relu, TensorProduct and
Softmax. -/
def semantic_prediction (image_data_format : String) (semantic_names : List String)
    (semantic_features : List Tensor) (target_level : Int) (input_target : Option Tensor)
    (n_filters : Nat) (n_dense : Nat) (n_classes : Nat) : Except PyError Tensor :=
  let channel_axis : Int := if image_data_format = "channels_first" then 1 else -1
  ebind (listGet semantic_features 0) fun s0 =>
  let semantic_sum := (semantic_features.drop 1).foldl (fun acc f => Tensor.add none acc f) s0
  ebind (listLast semantic_names) fun lastName =>
  ebind (pyLevel lastName) fun min_level =>
  let n_upsample : Int := (min_level : Int) - target_level
  let x0 := semantic_upsample semantic_sum n_upsample 256 input_target
  ebind (getAttrTensor input_target) fun it =>
  let x1 := Tensor.reshape it x0
  let x2 := Tensor.tensorProduct n_dense x1
  let x3 := Tensor.batchNormalization (-1) x2
  let x4 := Tensor.activation "relu" none x3
  let x5 := Tensor.tensorProduct n_classes x4
  Except.ok (Tensor.softmax channel_axis x5)

/-- Loop of `__create_semantic_head` (lines 292-302) over the zipped
name/feature pairs: read the level of each name, upsample by
`level - target_level` with the previous semantic feature as target (None for
the first), and append `'Q' + str(level)`. -/
def shLoop (target_level : Int) (n_filters : Nat) :
    List (String × Tensor) → List String → List Tensor →
    Except PyError (List String × List Tensor)
  | [], sn, sf => Except.ok (sn, sf)
  | (N, P) :: rest, sn, sf =>
    ebind (pyLevel N) fun level =>
    let n_upsample : Int := (level : Int) - target_level
    let target := sf.getLast?
    shLoop target_level n_filters rest (sn ++ ["Q" ++ toString level])
      (sf ++ [semantic_upsample P n_upsample n_filters target])

/-- Outcome of a call to `__create_semantic_head`: the returned tensor (or the
raised error) together with the state of the two list arguments after the
call, since lines 284-285 reverse both lists in place. -/
structure SemHeadOut where
  result : Except PyError Tensor
  names_after : List String
  features_after : List Tensor

/-- Translation of `__create_semantic_head` (lines 261-308): reverse the two
argument lists in place, run the per-level semantic upsampling loop, then
build the prediction head with `semantic_prediction` (passing `n_classes` and
`input_target`, leaving `target_level=0`, `n_filters=256`, `n_dense=256` at
their defaults). -/
def __create_semantic_head (image_data_format : String) (pyramid_names : List String)
    (pyramid_features : List Tensor) (input_target : Option Tensor)
    (target_level : Int) (n_classes : Nat) (n_filters : Nat) : SemHeadOut :=
  let pn := pyramid_names.reverse
  let pf := pyramid_features.reverse
  let res :=
    ebind (shLoop target_level n_filters (pn.zip pf) [] []) fun snsf =>
    semantic_prediction image_data_format snsf.1 snsf.2 0 input_target 256 256 n_classes
  SemHeadOut.mk res pn pf

/-- Keyword arguments handed to the (undefined) `get_pyramid_layer_outputs`. -/
structure GPLOKwargs where
  include_top : Bool
  input_tensor : Tensor
  weights : Option String
  pooling : Option String

/-- Signature of the missing `get_pyramid_layer_outputs`: backbone name, input
tensor and keyword arguments to a pair of backbone names and features. -/
def GPLO : Type := String → Tensor → GPLOKwargs → List String × List Tensor

/-- A Keras functional `Model(inputs=..., outputs=..., name=...)`. -/
structure Model where
  inputs : Tensor
  outputs : Tensor
  name : String

/-- Python's `min` on a list of naturals: ValueError on the empty list. -/
def pyMin (l : List Nat) : Except PyError Nat :=
  match l with
  | [] => Except.error PyError.valueError
  | x :: xs => Except.ok (xs.foldl Nat.min x)

/-- Translation of `FPNet` (lines 311-384).  The input layer, normalization
and channel-fixing TensorProduct are built first; then the backbone outputs
are requested through the free name `get_pyramid_layer_outputs`, which the
module never binds (its resolution is the `Option` parameter, `none` in the
module as written), then `__create_pyramid_features`, the level computation,
dropping the last pyramid level, `__create_semantic_head`, and finally the
Model. -/
def FPNet (image_data_format : String)
    (get_pyramid_layer_outputs : Option GPLO)
    (backbone_dict : Option (List (String × Tensor)))
    (backbone : String) (input_shape : List Nat) (inputs : Option Tensor)
    (norm_method : String) (weights : Option String) (pooling : Option String)
    (required_channels : Nat) (n_classes : Nat) (name : String) :
    Except PyError Model :=
  let inp :=
    match inputs with
    | some t => t
    | none => Tensor.input input_shape
  let norm := Tensor.imageNormalization2D norm_method inp
  let fixed_inputs := Tensor.tensorProduct required_channels norm
  let model_kwargs := GPLOKwargs.mk false fixed_inputs weights pooling
  match get_pyramid_layer_outputs with
  | none => Except.error (PyError.nameError "get_pyramid_layer_outputs")
  | some g =>
    let outs := g backbone inp model_kwargs
    ebind (__create_pyramid_features backbone_dict outs.1 outs.2 256) fun fpn =>
    ebind (mapE pyLevel fpn.1) fun levels =>
    ebind (pyMin levels) fun target_level =>
    let fpn_names := fpn.1.dropLast
    let fpn_features := fpn.2.dropLast
    let sh := __create_semantic_head image_data_format fpn_names fpn_features (some inp)
      (Int.ofNat target_level) n_classes 128
    ebind sh.result fun x =>
    Except.ok (Model.mk inp x name)

/-- Names bound at module level by fpn_utils.py: the three `__future__`
imports, the imported layer builders and modules (lines 32-47) and the five
functions the file defines.  Neither `backbone_dict` nor
`get_pyramid_layer_outputs` is among them (nor are they Python builtins), so
referencing either raises NameError. -/
def moduleBindings : List String :=
  ["absolute_import", "print_function", "division", "re", "K", "Model",
   "Conv2D", "MaxPool2D", "Softmax", "Input", "Concatenate", "Add", "Reshape",
   "Activation", "UpSampling2D", "BatchNormalization", "applications",
   "UpsampleLike", "TensorProduct", "ImageNormalization2D",
   "create_pyramid_level", "__create_pyramid_features", "semantic_upsample",
   "semantic_prediction", "__create_semantic_head", "FPNet"]

/-- Composition of `k` ordinary loop rounds of `semantic_upsample`: each round
is a 3x3 conv followed by a 2x UpSampling2D. -/
def upsample_rounds (n_filters : Nat) : Nat → Tensor → Tensor
  | 0, x => x
  | k + 1, x =>
    Tensor.upSampling2D (2, 2)
      (Tensor.conv2D n_filters (3, 3) (1, 1) "same" none (some "channels_last")
        (upsample_rounds n_filters k x))

/-- Layer kinds `semantic_prediction` is allowed to introduce on top of its
tensor arguments. -/
def spAllowed : List LayerKind :=
  [LayerKind.add, LayerKind.conv2D, LayerKind.upSampling2D, LayerKind.upsampleLike,
   LayerKind.reshape, LayerKind.tensorProduct, LayerKind.batchNormalization,
   LayerKind.activation, LayerKind.softmax]

/-- Output of `semantic_prediction` at the concrete witness input used below. -/
def spWitnessOut : Tensor :=
  Tensor.softmax (-1)
    (Tensor.tensorProduct 3
      (Tensor.activation "relu" none
        (Tensor.batchNormalization (-1)
          (Tensor.tensorProduct 256
            (Tensor.reshape (Tensor.input [7])
              (Tensor.upsampleLike none
                (Tensor.conv2D 256 (3, 3) (1, 1) "same" none (some "channels_last")
                  (Tensor.input [5]))
                (Tensor.input [7])))))))

/-- Boolean test that a list of levels is nondecreasing. -/
def nondecB : List Nat → Bool
  | [] => true
  | [_] => true
  | a :: b :: t => decide (a ≤ b) && nondecB (b :: t)

/-- Well-formed backbone names as the docstring describes them ([C0, C1, ...]):
an ASCII non-digit character followed by a nonempty run of ASCII digits.  The
first character must be ASCII (code point below 128) because Python's `\d`
and `int()` treat non-ASCII Unicode decimal digits as digits, so a key such
as an ARABIC-INDIC digit followed by "3" would have diverging sort key and
level in the program; on the ASCII names admitted here the embedding's digit
model coincides with Python's. -/
def wfName (s : String) : Bool :=
  match s.data with
  | [] => false
  | c :: ds => (decide (c.toNat < 128)) && !(isDigitC c) && !(ds.isEmpty) && ds.all isDigitC

/-- Numeric value of the suffix of a backbone name after its first character. -/
def natVal (s : String) : Nat := digitsVal (s.data.drop 1)

/-- Backbone dict showing that claim C3 fails as stated: the key "12" sorts
by `int(x[1:]) = 2` but has pyramid level `12` (the first digit run). -/
def cpfCxDict : List (String × Tensor) :=
  [("12", Tensor.input [1]), ("C3", Tensor.input [2])]

/-- Backbone dict for the C3 witness. -/
def cpfWitnessDict : List (String × Tensor) :=
  [("C3", Tensor.input [1]), ("C5", Tensor.input [2])]

/-- Names returned by `__create_pyramid_features` on the witness dict. -/
def cpfWitnessNames : List String := ["P3", "P5", "P6", "P7"]

/-- Tensors returned by `__create_pyramid_features` on the witness dict. -/
def cpfWitnessFinals : List Tensor :=
  [Tensor.conv2D 256 (3, 3) (1, 1) "same" (some "P3") none
     (Tensor.add (some "P3_merged")
       (Tensor.conv2D 256 (1, 1) (1, 1) "same" (some "C3_reduced") none (Tensor.input [1]))
       (Tensor.upsampleLike (some "P5_upsampled")
         (Tensor.conv2D 256 (1, 1) (1, 1) "same" (some "C5_reduced") none (Tensor.input [2]))
         (Tensor.input [1]))),
   Tensor.conv2D 256 (3, 3) (1, 1) "same" (some "P5") none
     (Tensor.conv2D 256 (1, 1) (1, 1) "same" (some "C5_reduced") none (Tensor.input [2])),
   Tensor.conv2D 256 (3, 3) (2, 2) "same" (some "P6") none (Tensor.input [2]),
   Tensor.conv2D 256 (3, 3) (2, 2) "same" (some "P7") none
     (Tensor.activation "relu" (some "C5_relu")
       (Tensor.conv2D 256 (3, 3) (2, 2) "same" (some "P6") none (Tensor.input [2])))]

@[simp] theorem ebind_ok {e a b : Type} (v : a) (f : a → Except e b) :
    ebind (Except.ok v) f = f v := rfl

@[simp] theorem ebind_error {e a b : Type} (err : e) (f : a → Except e b) :
    ebind (Except.error err : Except e a) f = Except.error err := rfl

@[simp] theorem getAttrTensor_some (t : Tensor) : getAttrTensor (some t) = Except.ok t := rfl

@[simp] theorem getAttrTensor_none :
    getAttrTensor none = Except.error PyError.attributeError := rfl

/-- C1: the claim says every call of `FPNet` returns a Model; as written the
code cannot, because line 364 calls `get_pyramid_layer_outputs`, a name the
module never binds, so the call raises NameError.  This theorem evaluates the
translated `FPNet` at the failing input `FPNet('resnet50', (256, 256, 1))`
(all other arguments at their defaults) and shows the NameError. -/
theorem C1_fpnet_raises_nameError :
    FPNet "channels_last" none none "resnet50" [256, 256, 1] none "whole_image"
      none none 3 3 "fpnet" =
      Except.error (PyError.nameError "get_pyramid_layer_outputs") := rfl

/-- C2: `backbone_dict` and `get_pyramid_layer_outputs` are bound nowhere in
the module, so `__create_pyramid_features` raises NameError on its first
statement for every argument choice (hence before any pyramid level is
constructed, since it returns no partial result), and every `FPNet` call
raises NameError at the `get_pyramid_layer_outputs` call. -/
theorem C2_undefined_names_raise_nameError :
    moduleBindings.contains "backbone_dict" = false ∧
    moduleBindings.contains "get_pyramid_layer_outputs" = false ∧
    (∀ (bn : List String) (bf : List Tensor) (fs : Nat),
      __create_pyramid_features none bn bf fs =
        Except.error (PyError.nameError "backbone_dict")) ∧
    (∀ (idf bk : String) (ish : List Nat) (inp : Option Tensor) (nm : String)
        (w p : Option String) (rc nc : Nat) (nme : String),
      FPNet idf none none bk ish inp nm w p rc nc nme =
        Except.error (PyError.nameError "get_pyramid_layer_outputs")) :=
  ⟨by decide, by decide, fun _ _ _ => rfl, fun _ _ _ _ _ _ _ _ _ _ => rfl⟩

/-- C4: `create_pyramid_level` applies its layers in the fixed order 1x1 conv,
then UpsampleLike of the 1x1-conv output (when a template is given), then Add
of the 1x1-conv output with the addition input (when given), then a 3x3 conv
which is the first component of the result; the second component is the
upsampled tensor.  The four equations display the exact nesting for every
combination of the optional arguments. -/
theorem C4_create_pyramid_level_order :
    ∀ (b u a : Tensor) (uo ao : Option Tensor) (level feature_size : Nat),
      (create_pyramid_level b uo (some a) level feature_size).1 =
        Tensor.conv2D feature_size (3, 3) (1, 1) "same" (some ("P" ++ toString level)) none
          (Tensor.add (some ("P" ++ toString level ++ "_merged"))
            (Tensor.conv2D feature_size (1, 1) (1, 1) "same"
              (some ("C" ++ toString level ++ "_reduced")) none b) a) ∧
      (create_pyramid_level b uo none level feature_size).1 =
        Tensor.conv2D feature_size (3, 3) (1, 1) "same" (some ("P" ++ toString level)) none
          (Tensor.conv2D feature_size (1, 1) (1, 1) "same"
            (some ("C" ++ toString level ++ "_reduced")) none b) ∧
      (create_pyramid_level b (some u) ao level feature_size).2 =
        some (Tensor.upsampleLike (some ("P" ++ toString level ++ "_upsampled"))
          (Tensor.conv2D feature_size (1, 1) (1, 1) "same"
            (some ("C" ++ toString level ++ "_reduced")) none b) u) ∧
      (create_pyramid_level b none ao level feature_size).2 = none := by
  intro b u a uo ao level feature_size
  refine ⟨?_, ?_, ?_, ?_⟩
  · cases uo <;> rfl
  · cases uo <;> rfl
  · cases ao <;> rfl
  · cases ao <;> rfl

/-- C5 counterexample: the claim says the file's functions introduce no error
conditions of their own for any arguments, but `__create_pyramid_features`
raises NameError for a name the module itself fails to define — a failure of
this file's code, not a framework shape or argument error. -/
theorem C5_file_raises_own_errors_cx :
    __create_pyramid_features none ([] : List String) ([] : List Tensor) 256 =
      Except.error (PyError.nameError "backbone_dict") ∧
    moduleBindings.contains "backbone_dict" = false := ⟨rfl, by decide⟩

/-- C5 amended: the file does introduce error conditions of its own: every
call of `__create_pyramid_features` raises NameError (undefined
`backbone_dict`), every call of `FPNet` raises NameError (undefined
`get_pyramid_layer_outputs`), a single-level backbone dict raises IndexError
at `backbone_features[i+1]`, and a key whose suffix is not an integer raises
ValueError in the sort; other failures are the framework's. -/
theorem C5_file_raises_own_errors :
    (∀ (bn : List String) (bf : List Tensor) (fs : Nat),
      __create_pyramid_features none bn bf fs =
        Except.error (PyError.nameError "backbone_dict")) ∧
    (∀ (idf bk : String) (ish : List Nat) (inp : Option Tensor) (nm : String)
        (w p : Option String) (rc nc : Nat) (nme : String),
      FPNet idf none none bk ish inp nm w p rc nc nme =
        Except.error (PyError.nameError "get_pyramid_layer_outputs")) ∧
    __create_pyramid_features (some [("C3", Tensor.input [1])]) [] [] 256 =
      Except.error PyError.indexError ∧
    __create_pyramid_features (some [("Cx", Tensor.input [1])]) [] [] 256 =
      Except.error PyError.valueError :=
  ⟨fun _ _ _ => rfl, fun _ _ _ _ _ _ _ _ _ _ => rfl, rfl, rfl⟩

/-- C6 counterexample: the claim says the `pyramid_names` list passed to
`__create_semantic_head` is unmodified after the call, but lines 284-285
reverse the caller's lists in place and never restore them. -/
theorem C6_semantic_head_mutates_cx :
    (__create_semantic_head "channels_last" ["P3", "P4"]
        [Tensor.input [1], Tensor.input [2]] none 2 3 128).names_after ≠
      ["P3", "P4"] := by decide

/-- C6 amended: `__create_semantic_head` reverses the `pyramid_names` and
`pyramid_features` lists it is passed in place, so after the call the
caller's lists are exactly the reverses of what was passed (still
index-aligned with each other, but not unmodified). -/
theorem C6_semantic_head_reverses_arguments :
    ∀ (idf : String) (ns : List String) (fs : List Tensor) (it : Option Tensor)
      (tl : Int) (nc nf : Nat),
      (__create_semantic_head idf ns fs it tl nc nf).names_after = ns.reverse ∧
      (__create_semantic_head idf ns fs it tl nc nf).features_after = fs.reverse :=
  fun _ _ _ _ _ _ _ => ⟨rfl, rfl⟩

/-- C7: the claim describes the backbone → pyramid → semantic-head → softmax
construction sequence running for every argument combination; the code cannot
run it, because even when the backbone outputs are obtained (here: any
resolution `g` of the missing `get_pyramid_layer_outputs`), the very next
step `__create_pyramid_features` raises NameError on the undefined
`backbone_dict`, so no pyramid level and no semantic head is ever built. -/
theorem C7_sequence_never_completes :
    ∀ (idf : String) (g : GPLO) (bk : String) (ish : List Nat)
      (inp : Option Tensor) (nm : String) (w p : Option String)
      (rc nc : Nat) (nme : String),
      FPNet idf (some g) none bk ish inp nm w p rc nc nme =
        Except.error (PyError.nameError "backbone_dict") := by
  intros; rfl

/-- C9: the second component of `create_pyramid_level` is `none` exactly when
`upsamplelike_input` is, it is the UpsampleLike of the 1x1-conv output taken
before any addition, and it does not depend on `addition_input` at all. -/
theorem C9_upsample_component :
    ∀ (b u : Tensor) (ao ao' : Option Tensor) (level feature_size : Nat),
      (create_pyramid_level b none ao level feature_size).2 = none ∧
      (create_pyramid_level b (some u) ao level feature_size).2 =
        some (Tensor.upsampleLike (some ("P" ++ toString level ++ "_upsampled"))
          (Tensor.conv2D feature_size (1, 1) (1, 1) "same"
            (some ("C" ++ toString level ++ "_reduced")) none b) u) ∧
      (∀ uo : Option Tensor,
        (create_pyramid_level b uo ao level feature_size).2 =
          (create_pyramid_level b uo ao' level feature_size).2) ∧
      (∀ uo : Option Tensor,
        ((create_pyramid_level b uo ao level feature_size).2 = none ↔ uo = none)) := by
  intro b u ao ao' level feature_size
  refine ⟨?_, ?_, ?_, ?_⟩
  · cases ao <;> rfl
  · cases ao <;> rfl
  · intro uo; cases uo <;> cases ao <;> cases ao' <;> rfl
  · intro uo
    cases uo <;> cases ao <;> simp [create_pyramid_level]

theorem range_foldl_suStep (f : Nat) (tgt : Option Tensor) (k : Nat) :
    ∀ (m : Nat) (acc : Tensor), m ≤ k →
      (List.range m).foldl (suStep f ((k : Int) + 1) tgt) acc = upsample_rounds f m acc := by
  intro m
  induction m with
  | zero => intro acc _; rfl
  | succ m ih =>
    intro acc hm
    rw [List.range_succ, List.foldl_append, ih acc (Nat.le_of_succ_le hm)]
    simp only [List.foldl_cons, List.foldl_nil]
    unfold suStep
    cases tgt with
    | none => rfl
    | some t =>
      have hne : ((m : Int)) ≠ ((k : Int) + 1) - 1 := by omega
      simp only [hne, if_false, upsample_rounds]

theorem semantic_upsample_zero_none (x : Tensor) (f : Nat) :
    semantic_upsample x 0 f none =
      Tensor.conv2D f (3, 3) (1, 1) "same" none (some "channels_last") x := rfl

theorem semantic_upsample_zero_some (x t : Tensor) (f : Nat) :
    semantic_upsample x 0 f (some t) =
      Tensor.upsampleLike none
        (Tensor.conv2D f (3, 3) (1, 1) "same" none (some "channels_last") x) t := rfl

theorem semantic_upsample_neg (x : Tensor) (n : Int) (f : Nat) (tgt : Option Tensor)
    (h : n < 0) : semantic_upsample x n f tgt = x := by
  unfold semantic_upsample
  have h0 : ¬ n = 0 := by omega
  have ht : n.toNat = 0 := by omega
  rw [ht, if_neg h0]
  rfl

theorem semantic_upsample_succ_none (x : Tensor) (k f : Nat) :
    semantic_upsample x ((k : Int) + 1) f none =
      Tensor.upSampling2D (2, 2)
        (Tensor.conv2D f (3, 3) (1, 1) "same" none (some "channels_last")
          (upsample_rounds f k x)) := by
  unfold semantic_upsample
  have h0 : ¬ ((k : Int) + 1) = 0 := by omega
  have ht : ((k : Int) + 1).toNat = k + 1 := by omega
  rw [ht, if_neg h0, List.range_succ, List.foldl_append,
    range_foldl_suStep f none k k x (Nat.le_refl k)]
  rfl

theorem semantic_upsample_succ_some (x t : Tensor) (k f : Nat) :
    semantic_upsample x ((k : Int) + 1) f (some t) =
      Tensor.upsampleLike none
        (Tensor.conv2D f (3, 3) (1, 1) "same" none (some "channels_last")
          (upsample_rounds f k x)) t := by
  unfold semantic_upsample
  have h0 : ¬ ((k : Int) + 1) = 0 := by omega
  have ht : ((k : Int) + 1).toNat = k + 1 := by omega
  rw [ht, if_neg h0, List.range_succ, List.foldl_append,
    range_foldl_suStep f (some t) k k x (Nat.le_refl k)]
  simp only [List.foldl_cons, List.foldl_nil]
  simp only [suStep]
  have heq : ((k : Int)) = ((k : Int) + 1) - 1 := by omega
  rw [if_pos heq]

theorem upsample_rounds_depth (f k : Nat) (x : Tensor) :
    x.depth ≤ (upsample_rounds f k x).depth := by
  induction k with
  | zero => exact Nat.le_refl _
  | succ k ih =>
    refine Nat.le_trans ih ?_
    show (upsample_rounds f k x).depth ≤ ((upsample_rounds f k x).depth + 1) + 1
    omega

theorem semantic_upsample_depth (x : Tensor) (n : Int) (f : Nat) (tgt : Option Tensor)
    (h : 0 ≤ n) : x.depth < (semantic_upsample x n f tgt).depth := by
  obtain ⟨m, rfl⟩ := Int.eq_ofNat_of_zero_le h
  cases m with
  | zero =>
    cases tgt with
    | none =>
      rw [Nat.cast_zero, semantic_upsample_zero_none]
      show x.depth < x.depth + 1
      omega
    | some t =>
      rw [Nat.cast_zero, semantic_upsample_zero_some]
      show x.depth < Nat.max (x.depth + 1) t.depth + 1
      have hmx : x.depth + 1 ≤ Nat.max (x.depth + 1) t.depth := Nat.le_max_left _ _
      omega
  | succ m =>
    have hr := upsample_rounds_depth f m x
    cases tgt with
    | none =>
      rw [Nat.cast_succ, semantic_upsample_succ_none]
      show x.depth < ((upsample_rounds f m x).depth + 1) + 1
      omega
    | some t =>
      rw [Nat.cast_succ, semantic_upsample_succ_some]
      show x.depth < Nat.max ((upsample_rounds f m x).depth + 1) t.depth + 1
      have hmx : (upsample_rounds f m x).depth + 1 ≤
          Nat.max ((upsample_rounds f m x).depth + 1) t.depth := Nat.le_max_left _ _
      omega

/-- C10 counterexample: the claim opens with "semantic_upsample never returns
its input unchanged", but `n_upsample` is a Python int, and for a negative
value both the loop (`range` of a negative is empty) and the `n_upsample == 0`
branch are skipped, so the input comes back untouched. -/
theorem C10_negative_returns_input_cx :
    semantic_upsample (Tensor.input [1]) (-1) 256 none = Tensor.input [1] := rfl

/-- C10 amended: for nonnegative `n_upsample` the function never returns its
input unchanged — at 0 it applies exactly one 3x3 conv (plus an UpsampleLike
when a target is given), and at `k+1` it applies `k` conv-then-2x-upsample
rounds followed by a final conv whose upsampling is an UpsampleLike to the
target when one is given and a 2x UpSampling2D otherwise; for negative
`n_upsample` it returns the input unchanged. -/
theorem C10_semantic_upsample_structure :
    ∀ (x t : Tensor) (f k : Nat) (tgt : Option Tensor) (n : Int),
      semantic_upsample x 0 f none =
        Tensor.conv2D f (3, 3) (1, 1) "same" none (some "channels_last") x ∧
      semantic_upsample x 0 f (some t) =
        Tensor.upsampleLike none
          (Tensor.conv2D f (3, 3) (1, 1) "same" none (some "channels_last") x) t ∧
      semantic_upsample x ((k : Int) + 1) f none =
        Tensor.upSampling2D (2, 2)
          (Tensor.conv2D f (3, 3) (1, 1) "same" none (some "channels_last")
            (upsample_rounds f k x)) ∧
      semantic_upsample x ((k : Int) + 1) f (some t) =
        Tensor.upsampleLike none
          (Tensor.conv2D f (3, 3) (1, 1) "same" none (some "channels_last")
            (upsample_rounds f k x)) t ∧
      (n < 0 → semantic_upsample x n f tgt = x) ∧
      (0 ≤ n → semantic_upsample x n f tgt ≠ x) := by
  intro x t f k tgt n
  refine ⟨semantic_upsample_zero_none x f, semantic_upsample_zero_some x t f,
    semantic_upsample_succ_none x k f, semantic_upsample_succ_some x t k f,
    fun h => semantic_upsample_neg x n f tgt h, fun h heq => ?_⟩
  have hd := semantic_upsample_depth x n f tgt h
  rw [heq] at hd
  exact Nat.lt_irrefl _ hd

/-- C10 witness: the amended theorem applied at concrete inputs, discharging
both sign hypotheses. -/
theorem C10_witness :
    semantic_upsample (Tensor.input [2]) (-3) 128 none = Tensor.input [2] ∧
    semantic_upsample (Tensor.input [2]) 0 128 none ≠ Tensor.input [2] :=
  ⟨(C10_semantic_upsample_structure (Tensor.input [2]) (Tensor.input [2]) 128 0 none
      (-3)).2.2.2.2.1 (by decide),
   (C10_semantic_upsample_structure (Tensor.input [2]) (Tensor.input [2]) 128 0 none
      0).2.2.2.2.2 (by decide)⟩

theorem kinds_upsample_rounds (f m : Nat) (x : Tensor) (k : LayerKind)
    (h : k ∈ (upsample_rounds f m x).kinds) :
    k = LayerKind.conv2D ∨ k = LayerKind.upSampling2D ∨ k ∈ x.kinds := by
  induction m with
  | zero => exact Or.inr (Or.inr h)
  | succ m ih =>
    simp only [upsample_rounds, Tensor.kinds, List.mem_cons] at h
    rcases h with h | h | h
    · exact Or.inr (Or.inl h)
    · exact Or.inl h
    · exact ih h

theorem kinds_semantic_upsample (x : Tensor) (n : Int) (f : Nat) (tgt : Option Tensor)
    (k : LayerKind) (h : k ∈ (semantic_upsample x n f tgt).kinds) :
    k = LayerKind.conv2D ∨ k = LayerKind.upSampling2D ∨ k = LayerKind.upsampleLike ∨
      k ∈ x.kinds ∨ (∃ t, tgt = some t ∧ k ∈ t.kinds) := by
  rcases lt_or_le n 0 with hn | hn
  · rw [semantic_upsample_neg x n f tgt hn] at h
    exact Or.inr (Or.inr (Or.inr (Or.inl h)))
  · obtain ⟨m, rfl⟩ := Int.eq_ofNat_of_zero_le hn
    cases m with
    | zero =>
      cases tgt with
      | none =>
        rw [Nat.cast_zero, semantic_upsample_zero_none] at h
        simp only [Tensor.kinds, List.mem_cons] at h
        rcases h with h | h
        · exact Or.inl h
        · exact Or.inr (Or.inr (Or.inr (Or.inl h)))
      | some t =>
        rw [Nat.cast_zero, semantic_upsample_zero_some] at h
        simp only [Tensor.kinds, List.mem_cons, List.mem_append] at h
        rcases h with h | (h | h) | h
        · exact Or.inr (Or.inr (Or.inl h))
        · exact Or.inl h
        · exact Or.inr (Or.inr (Or.inr (Or.inl h)))
        · exact Or.inr (Or.inr (Or.inr (Or.inr ⟨t, rfl, h⟩)))
    | succ m =>
      cases tgt with
      | none =>
        rw [Nat.cast_succ, semantic_upsample_succ_none] at h
        simp only [Tensor.kinds, List.mem_cons] at h
        rcases h with h | h | h
        · exact Or.inr (Or.inl h)
        · exact Or.inl h
        · rcases kinds_upsample_rounds f m x k h with h | h | h
          · exact Or.inl h
          · exact Or.inr (Or.inl h)
          · exact Or.inr (Or.inr (Or.inr (Or.inl h)))
      | some t =>
        rw [Nat.cast_succ, semantic_upsample_succ_some] at h
        simp only [Tensor.kinds, List.mem_cons, List.mem_append] at h
        rcases h with h | (h | h) | h
        · exact Or.inr (Or.inr (Or.inl h))
        · exact Or.inl h
        · rcases kinds_upsample_rounds f m x k h with h | h | h
          · exact Or.inl h
          · exact Or.inr (Or.inl h)
          · exact Or.inr (Or.inr (Or.inr (Or.inl h)))
        · exact Or.inr (Or.inr (Or.inr (Or.inr ⟨t, rfl, h⟩)))

theorem kinds_add_foldl (fs : List Tensor) (s0 : Tensor) (k : LayerKind)
    (h : k ∈ (fs.foldl (fun acc f => Tensor.add none acc f) s0).kinds) :
    k = LayerKind.add ∨ k ∈ s0.kinds ∨ ∃ f ∈ fs, k ∈ f.kinds := by
  induction fs generalizing s0 with
  | nil => exact Or.inr (Or.inl h)
  | cons f fs ih =>
    simp only [List.foldl_cons] at h
    rcases ih (Tensor.add none s0 f) h with h | h | ⟨g, hg, hk⟩
    · exact Or.inl h
    · simp only [Tensor.kinds, List.mem_cons, List.mem_append] at h
      rcases h with h | h | h
      · exact Or.inl h
      · exact Or.inr (Or.inl h)
      · exact Or.inr (Or.inr ⟨f, List.mem_cons_self f fs, h⟩)
    · exact Or.inr (Or.inr ⟨g, List.mem_cons_of_mem f hg, hk⟩)

theorem listGet_ok_mem {a : Type} (l : List a) (i : Nat) (x : a)
    (h : listGet l i = Except.ok x) : x ∈ l := by
  unfold listGet at h
  cases hd : l.drop i with
  | nil => rw [hd] at h; exact absurd h (by simp)
  | cons y t =>
    rw [hd] at h
    have hx : x = y := by
      have := h
      simp only [Except.ok.injEq] at this
      exact this.symm
    refine List.drop_subset i l ?_
    rw [hd, hx]
    exact List.mem_cons_self y t

theorem kinds_semantic_prediction (idf : String) (sn : List String) (sf : List Tensor)
    (tl : Int) (it : Option Tensor) (nfil nd nc : Nat) (y : Tensor)
    (h : semantic_prediction idf sn sf tl it nfil nd nc = Except.ok y) :
    ∀ k ∈ y.kinds, k ∈ spAllowed ∨ (∃ f ∈ sf, k ∈ f.kinds) ∨
      (∃ t, it = some t ∧ k ∈ t.kinds) := by
  unfold semantic_prediction at h
  cases hget : listGet sf 0 with
  | error e => rw [hget] at h; exact absurd h (by simp [ebind])
  | ok s0 =>
  rw [hget] at h
  simp only [ebind_ok] at h
  cases hlast : listLast sn with
  | error e => rw [hlast] at h; exact absurd h (by simp [ebind])
  | ok lastName =>
  rw [hlast] at h
  simp only [ebind_ok] at h
  cases hlvl : pyLevel lastName with
  | error e => rw [hlvl] at h; exact absurd h (by simp [ebind])
  | ok min_level =>
  rw [hlvl] at h
  simp only [ebind_ok] at h
  cases it with
  | none => exact absurd h (by simp [ebind])
  | some t =>
  simp only [getAttrTensor_some, ebind_ok, Except.ok.injEq] at h
  subst h
  intro k hk
  simp only [Tensor.kinds, List.mem_cons, List.mem_append] at hk
  have hsum := kinds_add_foldl (sf.drop 1) s0 k
  have hs0 : s0 ∈ sf := listGet_ok_mem sf 0 s0 hget
  rcases hk with h | h | h | h | h | h | h | h
  · exact Or.inl (by rw [h]; decide)
  · exact Or.inl (by rw [h]; decide)
  · exact Or.inl (by rw [h]; decide)
  · exact Or.inl (by rw [h]; decide)
  · exact Or.inl (by rw [h]; decide)
  · exact Or.inl (by rw [h]; decide)
  · exact Or.inr (Or.inr ⟨t, rfl, h⟩)
  · rcases kinds_semantic_upsample _ _ _ _ k h with h | h | h | h | ⟨t', ht', hk'⟩
    · exact Or.inl (by rw [h]; decide)
    · exact Or.inl (by rw [h]; decide)
    · exact Or.inl (by rw [h]; decide)
    · rcases hsum h with h | h | ⟨f, hf, hkf⟩
      · exact Or.inl (by rw [h]; decide)
      · exact Or.inr (Or.inl ⟨s0, hs0, h⟩)
      · exact Or.inr (Or.inl ⟨f, List.drop_subset 1 sf hf, hkf⟩)
    · have ht'' : t = t' := Option.some.inj ht'
      exact Or.inr (Or.inr ⟨t, rfl, by rw [ht'']; exact hk'⟩)

/-- C8 counterexample: the claim says every tensor operation, upsampling
included, is delegated to the deep-learning framework's own layer builders,
but the UpsampleLike layer that `semantic_upsample` applies is imported from
`deepcell.layers` (line 46), the repository's own package, not from
`tensorflow.python.keras`. -/
theorem C8_upsampling_uses_deepcell_layer_cx :
    LayerKind.upsampleLike ∈
      (semantic_upsample (Tensor.input [4]) 0 256 (some (Tensor.input [8]))).kinds ∧
    layerSource LayerKind.upsampleLike = LayerSource.deepcell ∧
    LayerSource.deepcell ≠ LayerSource.framework := ⟨by decide, rfl, by decide⟩

/-- C8 amended: every tensor operation is performed through a layer builder —
the framework's own for convolution, 2x upsampling, addition, activation,
reshape, batch normalization and softmax, and the repository's
`deepcell.layers` for UpsampleLike, TensorProduct and ImageNormalization2D —
and `semantic_prediction` in particular emits only such layer applications on
top of its tensor arguments, with no tensor computation by other means. -/
theorem C8_operations_delegated_to_layers :
    (layerSource LayerKind.conv2D = LayerSource.framework ∧
     layerSource LayerKind.upSampling2D = LayerSource.framework ∧
     layerSource LayerKind.add = LayerSource.framework ∧
     layerSource LayerKind.activation = LayerSource.framework ∧
     layerSource LayerKind.reshape = LayerSource.framework ∧
     layerSource LayerKind.batchNormalization = LayerSource.framework ∧
     layerSource LayerKind.softmax = LayerSource.framework ∧
     layerSource LayerKind.upsampleLike = LayerSource.deepcell ∧
     layerSource LayerKind.tensorProduct = LayerSource.deepcell ∧
     layerSource LayerKind.imageNormalization2D = LayerSource.deepcell) ∧
    (∀ (idf : String) (sn : List String) (sf : List Tensor) (tl : Int)
       (it : Option Tensor) (nfil nd nc : Nat) (y : Tensor),
      semantic_prediction idf sn sf tl it nfil nd nc = Except.ok y →
      ∀ k ∈ y.kinds, k ∈ spAllowed ∨ (∃ f ∈ sf, k ∈ f.kinds) ∨
        (∃ t, it = some t ∧ k ∈ t.kinds)) :=
  ⟨⟨rfl, rfl, rfl, rfl, rfl, rfl, rfl, rfl, rfl, rfl⟩,
   fun idf sn sf tl it nfil nd nc y h =>
     kinds_semantic_prediction idf sn sf tl it nfil nd nc y h⟩

/-- C8 witness: the amended theorem applied at a concrete call of
`semantic_prediction`, with the success hypothesis discharged by evaluation
and the quantifier instantiated at the UpsampleLike kind. -/
theorem C8_witness :
    LayerKind.upsampleLike ∈ spAllowed ∨
    (∃ f ∈ [Tensor.input [5]], LayerKind.upsampleLike ∈ f.kinds) ∨
    (∃ t, (some (Tensor.input [7]) : Option Tensor) = some t ∧
      LayerKind.upsampleLike ∈ t.kinds) :=
  (C8_operations_delegated_to_layers.2 "channels_last" ["Q2"] [Tensor.input [5]] 2
    (some (Tensor.input [7])) 256 256 3 spWitnessOut rfl)
    LayerKind.upsampleLike (by decide)

theorem nondecB_iff (l : List Nat) :
    nondecB l = true ↔ List.Chain' (fun a b => a ≤ b) l := by
  induction l with
  | nil => simp [nondecB]
  | cons a t ih =>
    cases t with
    | nil => simp [nondecB]
    | cons b u =>
      rw [List.chain'_cons, nondecB]
      rw [Bool.and_eq_true, decide_eq_true_eq]
      exact and_congr Iff.rfl ih

theorem mapE_ok_length {a b : Type} (f : a → Except PyError b) :
    ∀ (l : List a) (v : List b), mapE f l = Except.ok v → v.length = l.length := by
  intro l
  induction l with
  | nil => intro v hv; cases hv; rfl
  | cons x xs ih =>
    intro v hv
    unfold mapE at hv
    cases hx : f x with
    | error e => rw [hx] at hv; exact absurd hv (by simp [ebind])
    | ok y =>
      rw [hx] at hv
      cases hxs : mapE f xs with
      | error e => rw [hxs] at hv; exact absurd hv (by simp [ebind])
      | ok ys =>
        rw [hxs] at hv
        simp only [ebind_ok, Except.ok.injEq] at hv
        subst hv
        simp [ih ys hxs]

theorem mapE_ok_zip {a b : Type} (f : a → Except PyError b) :
    ∀ (l : List a) (v : List b), mapE f l = Except.ok v →
      ∀ p ∈ l.zip v, f p.1 = Except.ok p.2 := by
  intro l
  induction l with
  | nil => intro v hv p hp; cases hv; simp at hp
  | cons x xs ih =>
    intro v hv p hp
    unfold mapE at hv
    cases hx : f x with
    | error e => rw [hx] at hv; exact absurd hv (by simp [ebind])
    | ok y =>
      rw [hx] at hv
      cases hxs : mapE f xs with
      | error e => rw [hxs] at hv; exact absurd hv (by simp [ebind])
      | ok ys =>
        rw [hxs] at hv
        simp only [ebind_ok, Except.ok.injEq] at hv
        subst hv
        simp only [List.zip_cons_cons, List.mem_cons] at hp
        rcases hp with hp | hp
        · rw [hp]; exact hx
        · exact ih ys hxs p hp

theorem mapE_of_forall_ok {a b : Type} (f : a → Except PyError b) (g : a → b) :
    ∀ (l : List a), (∀ x ∈ l, f x = Except.ok (g x)) → mapE f l = Except.ok (l.map g) := by
  intro l
  induction l with
  | nil => intro _; rfl
  | cons x xs ih =>
    intro h
    unfold mapE
    rw [h x (List.mem_cons_self x xs), ih (fun y hy => h y (List.mem_cons_of_mem x hy))]
    rfl

theorem mapE_append {a b : Type} (f : a → Except PyError b) :
    ∀ (l₁ l₂ : List a) (v : List b), mapE f (l₁ ++ l₂) = Except.ok v →
      ∃ v₁ v₂, mapE f l₁ = Except.ok v₁ ∧ mapE f l₂ = Except.ok v₂ ∧ v = v₁ ++ v₂ := by
  intro l₁
  induction l₁ with
  | nil => intro l₂ v hv; exact ⟨[], v, rfl, hv, rfl⟩
  | cons x xs ih =>
    intro l₂ v hv
    rw [List.cons_append] at hv
    unfold mapE at hv
    cases hx : f x with
    | error e => rw [hx] at hv; exact absurd hv (by simp [ebind])
    | ok y =>
      rw [hx] at hv
      cases hxs : mapE f (xs ++ l₂) with
      | error e => rw [hxs] at hv; exact absurd hv (by simp [ebind])
      | ok ys =>
        rw [hxs] at hv
        simp only [ebind_ok, Except.ok.injEq] at hv
        subst hv
        obtain ⟨v₁, v₂, h1, h2, h3⟩ := ih l₂ ys hxs
        refine ⟨y :: v₁, v₂, ?_, h2, by rw [h3]; rfl⟩
        unfold mapE
        rw [hx, h1]
        rfl

theorem mapE_append_eq {a b : Type} (f : a → Except PyError b) :
    ∀ (l₁ l₂ : List a),
      mapE f (l₁ ++ l₂) =
        ebind (mapE f l₁) fun v₁ => ebind (mapE f l₂) fun v₂ => Except.ok (v₁ ++ v₂) := by
  intro l₁ l₂
  induction l₁ with
  | nil =>
    simp only [List.nil_append]
    show mapE f l₂ = ebind (Except.ok []) fun v₁ => ebind (mapE f l₂) fun v₂ =>
      Except.ok (v₁ ++ v₂)
    cases h : mapE f l₂ <;> simp [ebind, h]
  | cons x xs ih =>
    rw [List.cons_append]
    show (ebind (f x) fun y => ebind (mapE f (xs ++ l₂)) fun ys => Except.ok (y :: ys)) =
      ebind (ebind (f x) fun y => ebind (mapE f xs) fun ys => Except.ok (y :: ys)) fun v₁ =>
        ebind (mapE f l₂) fun v₂ => Except.ok (v₁ ++ v₂)
    rw [ih]
    cases hx : f x with
    | error e => simp [ebind]
    | ok y =>
      simp only [ebind_ok]
      cases hxs : mapE f xs with
      | error e => simp [ebind]
      | ok v₁ =>
        simp only [ebind_ok]
        cases hl2 : mapE f l₂ with
        | error e => simp [ebind]
        | ok v₂ => simp [ebind]

theorem mapE_reverse_ok {a b : Type} (f : a → Except PyError b) :
    ∀ (l : List a) (v : List b), mapE f l = Except.ok v →
      mapE f l.reverse = Except.ok v.reverse := by
  intro l
  induction l with
  | nil => intro v hv; cases hv; rfl
  | cons x xs ih =>
    intro v hv
    unfold mapE at hv
    cases hx : f x with
    | error e => rw [hx] at hv; exact absurd hv (by simp [ebind])
    | ok y =>
      rw [hx] at hv
      cases hxs : mapE f xs with
      | error e => rw [hxs] at hv; exact absurd hv (by simp [ebind])
      | ok ys =>
        rw [hxs] at hv
        simp only [ebind_ok, Except.ok.injEq] at hv
        subst hv
        have hsingle : mapE f [x] = Except.ok [y] := by
          unfold mapE
          rw [hx]
          rfl
        rw [List.reverse_cons, mapE_append_eq, ih ys hxs, hsingle]
        simp [ebind]

theorem mem_insertKeyed (p q : Int × String) :
    ∀ l : List (Int × String), q ∈ insertKeyed p l ↔ q = p ∨ q ∈ l := by
  intro l
  induction l with
  | nil => simp [insertKeyed]
  | cons r t ih =>
    unfold insertKeyed
    by_cases h : p.1 < r.1
    · rw [if_pos h]
      simp [List.mem_cons]
    · rw [if_neg h]
      simp only [List.mem_cons, ih]
      tauto

theorem chain'_insertKeyed (p : Int × String) :
    ∀ l : List (Int × String),
      List.Chain' (fun a b : Int × String => a.1 ≤ b.1) l →
      List.Chain' (fun a b : Int × String => a.1 ≤ b.1) (insertKeyed p l) := by
  intro l
  induction l with
  | nil => intro _; simp [insertKeyed]
  | cons q t ih =>
    intro hc
    unfold insertKeyed
    by_cases h : p.1 < q.1
    · rw [if_pos h]
      exact List.chain'_cons.mpr ⟨le_of_lt h, hc⟩
    · rw [if_neg h]
      have hq : q.1 ≤ p.1 := le_of_not_lt h
      rw [List.chain'_cons']
      refine ⟨?_, ih hc.tail⟩
      intro y hy
      cases t with
      | nil =>
        simp only [insertKeyed, List.head?_cons, Option.mem_def, Option.some.injEq] at hy
        rw [← hy]
        exact hq
      | cons r u =>
        by_cases hr : p.1 < r.1
        · simp only [insertKeyed, if_pos hr, List.head?_cons, Option.mem_def,
            Option.some.injEq] at hy
          rw [← hy]
          exact hq
        · simp only [insertKeyed, if_neg hr, List.head?_cons, Option.mem_def,
            Option.some.injEq] at hy
          rw [← hy]
          exact (List.chain'_cons.mp hc).1

theorem mem_sortKeyed_aux (q : Int × String) :
    ∀ (l acc : List (Int × String)),
      q ∈ l.foldl (fun acc p => insertKeyed p acc) acc → q ∈ l ∨ q ∈ acc := by
  intro l
  induction l with
  | nil => intro acc h; exact Or.inr h
  | cons p t ih =>
    intro acc h
    rw [List.foldl_cons] at h
    rcases ih (insertKeyed p acc) h with h | h
    · exact Or.inl (List.mem_cons_of_mem p h)
    · rcases (mem_insertKeyed p q acc).mp h with h | h
      · exact Or.inl (by rw [h]; exact List.mem_cons_self p t)
      · exact Or.inr h

theorem mem_sortKeyed (q : Int × String) (l : List (Int × String))
    (h : q ∈ sortKeyed l) : q ∈ l := by
  rcases mem_sortKeyed_aux q l [] h with h | h
  · exact h
  · simp at h

theorem chain'_sortKeyed_aux :
    ∀ (l acc : List (Int × String)),
      List.Chain' (fun a b : Int × String => a.1 ≤ b.1) acc →
      List.Chain' (fun a b : Int × String => a.1 ≤ b.1)
        (l.foldl (fun acc p => insertKeyed p acc) acc) := by
  intro l
  induction l with
  | nil => intro acc h; exact h
  | cons p t ih =>
    intro acc h
    rw [List.foldl_cons]
    exact ih (insertKeyed p acc) (chain'_insertKeyed p acc h)

theorem chain'_sortKeyed (l : List (Int × String)) :
    List.Chain' (fun a b : Int × String => a.1 ≤ b.1) (sortKeyed l) :=
  chain'_sortKeyed_aux l [] List.chain'_nil

theorem ebind_ok_inv {e a b : Type} {x : Except e a} {f : a → Except e b} {v : b}
    (h : ebind x f = Except.ok v) : ∃ w, x = Except.ok w ∧ f w = Except.ok v := by
  cases x with
  | error err => exact absurd h (by simp [ebind])
  | ok w => exact ⟨w, rfl, h⟩

theorem digit_not_ws (c : Char) (h : isDigitC c = true) : isWsC c = false := by
  simp only [isDigitC, Bool.and_eq_true, decide_eq_true_eq] at h
  simp only [isWsC, Bool.or_eq_false_iff, decide_eq_false_iff_not]
  omega

theorem all_digits_dropWhile_ws (l : List Char) (h : l.all isDigitC = true) :
    l.dropWhile isWsC = l := by
  cases l with
  | nil => rfl
  | cons c cs =>
    have hc : isDigitC c = true := by
      simp only [List.all_cons, Bool.and_eq_true] at h
      exact h.1
    rw [List.dropWhile_cons, digit_not_ws c hc]
    simp

theorem all_digits_trimWs (l : List Char) (h : l.all isDigitC = true) : trimWs l = l := by
  unfold trimWs
  have hrev : l.reverse.all isDigitC = true := by
    simp only [List.all_eq_true] at h ⊢
    intro x hx
    exact h x (List.mem_reverse.mp hx)
  rw [all_digits_dropWhile_ws l h, all_digits_dropWhile_ws l.reverse hrev,
    List.reverse_reverse]

theorem parseUGroups_digits :
    ∀ (l : List Char) (acc : Nat), l.all isDigitC = true →
      parseUGroups l acc = some (l.foldl (fun a c => 10 * a + digitVal c) acc) := by
  intro l
  induction l with
  | nil => intro acc _; rfl
  | cons c cs ih =>
    intro acc h
    simp only [List.all_cons, Bool.and_eq_true] at h
    unfold parseUGroups
    rw [if_pos h.1, ih _ h.2]
    rfl

theorem parseUnsigned_digits (l : List Char) (hne : l ≠ []) (h : l.all isDigitC = true) :
    parseUnsigned l = some (digitsVal l) := by
  cases l with
  | nil => exact absurd rfl hne
  | cons c cs =>
    simp only [List.all_cons, Bool.and_eq_true] at h
    show (if isDigitC c = true then parseUGroups cs (digitVal c) else none) =
      some (digitsVal (c :: cs))
    rw [if_pos h.1, parseUGroups_digits cs (digitVal c) h.2]
    unfold digitsVal
    rw [List.foldl_cons]
    have hv : 10 * 0 + digitVal c = digitVal c := by omega
    rw [hv]

theorem pyInt_digits (l : List Char) (hne : l ≠ []) (h : l.all isDigitC = true) :
    pyInt (String.mk l) = Except.ok ((digitsVal l : Int)) := by
  cases l with
  | nil => exact absurd rfl hne
  | cons c cs =>
    have hc : isDigitC c = true := by
      simp only [List.all_cons, Bool.and_eq_true] at h
      exact h.1
    have hcn : 48 ≤ c.toNat ∧ c.toNat ≤ 57 := by
      simp only [isDigitC, Bool.and_eq_true, decide_eq_true_eq] at hc
      exact hc
    have hcore : pyIntCore (c :: cs) = some ((digitsVal (c :: cs) : Int)) := by
      show (if c.toNat = 43 then Option.map (fun n : Nat => (n : Int)) (parseUnsigned cs)
            else if c.toNat = 45 then Option.map (fun n : Nat => -(n : Int)) (parseUnsigned cs)
            else Option.map (fun n : Nat => (n : Int)) (parseUnsigned (c :: cs))) =
        some ((digitsVal (c :: cs) : Int))
      rw [if_neg (by omega : ¬ c.toNat = 43), if_neg (by omega : ¬ c.toNat = 45),
        parseUnsigned_digits (c :: cs) (by simp) h]
      rfl
    unfold pyInt
    have hdata : (String.mk (c :: cs)).data = c :: cs := rfl
    rw [hdata, all_digits_trimWs (c :: cs) h, hcore]

theorem takeDigits_all (l : List Char) (h : l.all isDigitC = true) : takeDigits l = l := by
  induction l with
  | nil => rfl
  | cons c cs ih =>
    simp only [List.all_cons, Bool.and_eq_true] at h
    unfold takeDigits
    rw [if_pos h.1, ih h.2]

theorem wfName_parts (s : String) (hwf : wfName s = true) :
    ∃ c ds, s.data = c :: ds ∧ isDigitC c = false ∧ ds ≠ [] ∧ ds.all isDigitC = true := by
  unfold wfName at hwf
  cases hs : s.data with
  | nil => rw [hs] at hwf; exact absurd hwf (by simp)
  | cons c ds =>
    rw [hs] at hwf
    simp only [Bool.and_eq_true, Bool.not_eq_true', decide_eq_true_eq] at hwf
    refine ⟨c, ds, rfl, hwf.1.1.2, ?_, hwf.2⟩
    intro hd
    rw [hd] at hwf
    simp at hwf

theorem pyLevel_wf (s : String) (hwf : wfName s = true) :
    pyLevel s = Except.ok (natVal s) := by
  obtain ⟨c, ds, hs, hc, hne, hall⟩ := wfName_parts s hwf
  unfold pyLevel
  rw [hs]
  unfold firstDigitRun
  rw [hc]
  simp only [Bool.false_eq_true, if_false]
  cases ds with
  | nil => exact absurd rfl hne
  | cons d t =>
    have hall' := hall
    simp only [List.all_cons, Bool.and_eq_true] at hall'
    unfold firstDigitRun
    rw [if_pos hall'.1, takeDigits_all t hall'.2]
    unfold natVal
    rw [hs]
    rfl

theorem pyInt_suffix_wf (s : String) (hwf : wfName s = true) :
    pyInt (String.mk (s.data.drop 1)) = Except.ok ((natVal s : Int)) := by
  obtain ⟨c, ds, hs, _, hne, hall⟩ := wfName_parts s hwf
  rw [hs]
  have hdrop : (c :: ds).drop 1 = ds := rfl
  rw [hdrop, pyInt_digits ds hne hall]
  unfold natVal
  rw [hs, hdrop]

theorem zip_append_eq {α β : Type} :
    ∀ (l₁ : List α) (l₂ : List β) (r₁ : List α) (r₂ : List β),
      l₁.length = l₂.length → (l₁ ++ r₁).zip (l₂ ++ r₂) = l₁.zip l₂ ++ r₁.zip r₂ := by
  intro l₁
  induction l₁ with
  | nil =>
    intro l₂ r₁ r₂ h
    cases l₂ with
    | nil => rfl
    | cons b u => simp at h
  | cons a t ih =>
    intro l₂ r₁ r₂ h
    cases l₂ with
    | nil => simp at h
    | cons b u =>
      simp only [List.cons_append, List.zip_cons_cons]
      rw [ih u r₁ r₂ (by simpa using h)]

theorem zip_reverse_eq {α β : Type} :
    ∀ (l₁ : List α) (l₂ : List β), l₁.length = l₂.length →
      l₁.reverse.zip l₂.reverse = (l₁.zip l₂).reverse := by
  intro l₁
  induction l₁ with
  | nil =>
    intro l₂ h
    cases l₂ with
    | nil => rfl
    | cons b u => simp at h
  | cons a t ih =>
    intro l₂ h
    cases l₂ with
    | nil => simp at h
    | cons b u =>
      have hlen : t.length = u.length := by simpa using h
      rw [List.reverse_cons, List.reverse_cons,
        zip_append_eq t.reverse u.reverse [a] [b] (by simp [hlen]), ih u hlen]
      simp

theorem chain_map_keys :
    ∀ (l : List (Int × String)),
      List.Chain' (fun a b : Int × String => a.1 ≤ b.1) l →
      (∀ p ∈ l, p.1 = ((natVal p.2 : Int))) →
      List.Chain' (fun a b : Nat => a ≤ b) (l.map (fun p => natVal p.2)) := by
  intro l
  induction l with
  | nil => intro _ _; exact List.chain'_nil
  | cons p t ih =>
    intro hc hm
    rw [List.map_cons, List.chain'_cons']
    constructor
    · intro y hy
      cases t with
      | nil => simp at hy
      | cons q u =>
        simp only [List.map_cons, List.head?_cons, Option.mem_def, Option.some.injEq] at hy
        have hpq : p.1 ≤ q.1 := (List.chain'_cons.mp hc).1
        have hp := hm p (List.mem_cons_self p (q :: u))
        have hq := hm q (List.mem_cons_of_mem p (List.mem_cons_self q u))
        rw [← hy]
        omega
    · exact ih hc.tail (fun q hq => hm q (List.mem_cons_of_mem p hq))

theorem headName_cpl_fst (bi : Tensor) (u a : Option Tensor) (lvl f : Nat) :
    headName (create_pyramid_level bi u a lvl f).1 = some (pname lvl) := by
  cases a <;> rfl

theorem listGet_ok_drop {α : Type} (l : List α) (i : Nat) (x : α)
    (h : listGet l i = Except.ok x) : l.drop i = x :: l.drop (i + 1) := by
  unfold listGet at h
  cases hd : l.drop i with
  | nil => rw [hd] at h; exact absurd h (by simp)
  | cons y t =>
    rw [hd] at h
    simp only [Except.ok.injEq] at h
    have ht : l.drop (i + 1) = t := by
      rw [← List.drop_drop, hd]
      rfl
    rw [ht, h]

theorem pyramidLoopStep_ok (bn : List String) (bf : List Tensor) (st st1 : PyrState)
    (i : Nat) (h : pyramidLoopStep bn bf st i = Except.ok st1) :
    ∃ (N : String) (lvl : Nat) (bi : Tensor) (ua : Option Tensor × Option Tensor),
      listGet bn i = Except.ok N ∧ pyLevel N = Except.ok lvl ∧
      st1.names = st.names ++ [pname lvl] ∧
      st1.finals = st.finals ++ [(create_pyramid_level bi ua.1 ua.2 lvl 256).1] := by
  unfold pyramidLoopStep at h
  obtain ⟨N, hN, h⟩ := ebind_ok_inv h
  obtain ⟨lvl, hL, h⟩ := ebind_ok_inv h
  obtain ⟨bi, hB, h⟩ := ebind_ok_inv h
  obtain ⟨ua, hUA, h⟩ := ebind_ok_inv h
  have hst := Except.ok.inj h
  refine ⟨N, lvl, bi, ua, hN, hL, ?_, ?_⟩
  · rw [← hst]
  · rw [← hst]

theorem pyramidLoop_ok (bn : List String) (bf : List Tensor) :
    ∀ (k i : Nat) (st st' : PyrState),
      i + k = bn.length →
      pyramidLoop bn bf (List.range' i k) st = Except.ok st' →
      ∃ (ls : List Nat) (fs : List Tensor),
        mapE pyLevel (bn.drop i) = Except.ok ls ∧
        st'.names = st.names ++ ls.map pname ∧
        st'.finals = st.finals ++ fs ∧
        fs.length = ls.length ∧
        ∀ p ∈ (ls.map pname).zip fs, headName p.2 = some p.1 := by
  intro k
  induction k with
  | zero =>
    intro i st st' hi h
    have hr : List.range' i 0 = [] := rfl
    rw [hr] at h
    simp only [pyramidLoop] at h
    have hst := Except.ok.inj h
    subst hst
    have hdrop : bn.drop i = [] := List.drop_eq_nil_of_le (by omega)
    refine ⟨[], [], ?_, by simp, by simp, rfl, by simp⟩
    rw [hdrop]
    rfl
  | succ k ih =>
    intro i st st' hi h
    have hr : List.range' i (k + 1) = i :: List.range' (i + 1) k := rfl
    rw [hr] at h
    simp only [pyramidLoop] at h
    obtain ⟨st1, hstep, hrest⟩ := ebind_ok_inv h
    obtain ⟨N, lvl, bi, ua, hN, hL, hnames, hfinals⟩ :=
      pyramidLoopStep_ok bn bf st st1 i hstep
    obtain ⟨ls, fs, hml, hn2, hf2, hlen, hzip⟩ := ih (i + 1) st1 st' (by omega) hrest
    have hdrop : bn.drop i = N :: bn.drop (i + 1) := listGet_ok_drop bn i N hN
    refine ⟨lvl :: ls, (create_pyramid_level bi ua.1 ua.2 lvl 256).1 :: fs,
      ?_, ?_, ?_, by simp [hlen], ?_⟩
    · rw [hdrop]
      show ebind (pyLevel N) (fun y => ebind (mapE pyLevel (bn.drop (i + 1)))
        fun ys => Except.ok (y :: ys)) = Except.ok (lvl :: ls)
      rw [hL, hml]
      rfl
    · rw [hn2, hnames, List.append_assoc]
      rfl
    · rw [hf2, hfinals, List.append_assoc]
      rfl
    · intro p hp
      simp only [List.map_cons, List.zip_cons_cons, List.mem_cons] at hp
      rcases hp with hp | hp
      · rw [hp]
        exact headName_cpl_fst bi ua.1 ua.2 lvl 256
      · exact hzip p hp

/-- C3 amended: restricted to backbone dicts whose keys have the documented
shape (an ASCII non-digit character followed by ASCII digits, e.g. C3) —
the scope on which the embedding's digit model agrees with Python's Unicode
`\d` and `int()` — every successful
run of `__create_pyramid_features` returns name and tensor lists of equal
length, index-aligned (the tensor at index i carries the layer name at index
i), with each name `'P' + str(level)` and the levels nondecreasing, and the
backbone name/feature lists derived before the loop are index-aligned (each
feature is the dict entry of its name) and sorted by level as well. -/
theorem C3_pyramid_features_invariant (d : List (String × Tensor)) (bn0 : List String)
    (bf0 : List Tensor) (fsz : Nat) (ns : List String) (fls : List Tensor)
    (hwf : ∀ n ∈ d.map Prod.fst, wfName n = true)
    (hret : __create_pyramid_features (some d) bn0 bf0 fsz = Except.ok (ns, fls)) :
    ∃ levels : List Nat,
      ns = levels.map pname ∧
      fls.length = ns.length ∧
      nondecB levels = true ∧
      ((ns.zip fls).all fun p => decide (headName p.2 = some p.1)) = true ∧
      ∃ (sbn : List String) (sbf : List Tensor) (blevels : List Nat),
        derive_backbone d = Except.ok (sbn, sbf) ∧
        sbn.length = sbf.length ∧
        mapE (dictGet d) sbn = Except.ok sbf ∧
        mapE pyLevel sbn = Except.ok blevels ∧
        nondecB blevels = true := by
  obtain ⟨bnbf, hdb, h1⟩ := ebind_ok_inv hret
  obtain ⟨st, hloop, h2⟩ := ebind_ok_inv h1
  obtain ⟨N, hN, h3⟩ := ebind_ok_inv h2
  obtain ⟨F, hF, h4⟩ := ebind_ok_inv h3
  obtain ⟨lvl, hlvl, h5⟩ := ebind_ok_inv h4
  obtain ⟨lvl2, hlvl2, h6⟩ := ebind_ok_inv h5
  have hlvl2e : lvl = lvl2 := by
    rw [hlvl] at hlvl2
    exact Except.ok.inj hlvl2
  subst hlvl2e
  have hpair := Except.ok.inj h6
  have hns : ns = (pname (lvl + 2) :: pname (lvl + 1) :: st.names).reverse :=
    (congrArg Prod.fst hpair).symm
  have hfls : fls =
      (Tensor.conv2D fsz (3, 3) (2, 2) "same" (some (pname (lvl + 2))) none
          (Tensor.activation "relu" (some (N ++ "_relu"))
            (Tensor.conv2D fsz (3, 3) (2, 2) "same" (some (pname (lvl + 1))) none F)) ::
        Tensor.conv2D fsz (3, 3) (2, 2) "same" (some (pname (lvl + 1))) none F ::
        st.finals).reverse :=
    (congrArg Prod.snd hpair).symm
  -- loop characterization
  have hloop' : pyramidLoop bnbf.1.reverse bnbf.2.reverse
      (List.range' 0 bnbf.1.reverse.length) (PyrState.mk [] [] []) = Except.ok st := by
    rw [← List.range_eq_range']
    exact hloop
  obtain ⟨ls, fs, hml, hn, hf, hlen, hzip⟩ :=
    pyramidLoop_ok bnbf.1.reverse bnbf.2.reverse bnbf.1.reverse.length 0
      (PyrState.mk [] [] []) st (by omega) hloop'
  rw [List.drop_zero] at hml
  simp only [List.nil_append] at hn hf
  subst hf
  -- backbone derivation characterization
  have hkeyed : mapE (fun n => Except.map (fun k => (k, n))
      (pyInt (String.mk (n.data.drop 1)))) (d.map Prod.fst) =
      Except.ok ((d.map Prod.fst).map (fun n => ((natVal n : Int), n))) := by
    refine mapE_of_forall_ok _ _ _ ?_
    intro n hn'
    rw [pyInt_suffix_wf n (hwf n hn')]
    rfl
  obtain ⟨keyed, hk1, hdb2⟩ := ebind_ok_inv hdb
  have hkeq : keyed = (d.map Prod.fst).map (fun n => ((natVal n : Int), n)) := by
    rw [hk1] at hkeyed
    exact Except.ok.inj hkeyed
  obtain ⟨sbf', hbf', hdb3⟩ := ebind_ok_inv hdb2
  have hpair2 := Except.ok.inj hdb3
  have hbn1 : bnbf.1 = (sortKeyed keyed).map Prod.snd := (congrArg Prod.fst hpair2).symm
  have hbf1 : bnbf.2 = sbf' := (congrArg Prod.snd hpair2).symm
  have hmem : ∀ p ∈ sortKeyed keyed, p.1 = ((natVal p.2 : Int)) ∧ wfName p.2 = true := by
    intro p hp
    have hpk := mem_sortKeyed p keyed hp
    rw [hkeq] at hpk
    obtain ⟨n, hn', hpn⟩ := List.mem_map.mp hpk
    subst hpn
    exact ⟨rfl, hwf n hn'⟩
  have hblevels : mapE pyLevel ((sortKeyed keyed).map Prod.snd) =
      Except.ok ((sortKeyed keyed).map (fun p => natVal p.2)) := by
    have hpt : ∀ n ∈ (sortKeyed keyed).map Prod.snd, pyLevel n = Except.ok (natVal n) := by
      intro n hn'
      simp only [List.mem_map] at hn'
      obtain ⟨p, hp, hpn⟩ := hn'
      rw [← hpn]
      exact pyLevel_wf p.2 (hmem p hp).2
    rw [mapE_of_forall_ok pyLevel natVal _ hpt, List.map_map]
    rfl
  have hchain : List.Chain' (fun a b : Nat => a ≤ b)
      ((sortKeyed keyed).map (fun p => natVal p.2)) :=
    chain_map_keys _ (chain'_sortKeyed keyed) (fun p hp => (hmem p hp).1)
  -- identify the loop level list with the reversed backbone level list
  have hrev := mapE_reverse_ok pyLevel _ _ hblevels
  rw [← hbn1] at hrev
  have hls_eq : ls = ((sortKeyed keyed).map (fun p => natVal p.2)).reverse := by
    rw [hml] at hrev
    exact Except.ok.inj hrev
  -- the head of the reversed backbone list has level lvl
  have hbn_cons : bnbf.1.reverse = N :: bnbf.1.reverse.drop 1 := by
    have hh := listGet_ok_drop bnbf.1.reverse 0 N hN
    rw [List.drop_zero] at hh
    exact hh
  have hml' : mapE pyLevel (N :: bnbf.1.reverse.drop 1) = Except.ok ls := by
    rw [← hbn_cons]
    exact hml
  obtain ⟨lvl0, hlvl0, hr1⟩ := ebind_ok_inv hml'
  obtain ⟨lsT, hlsT, hcons⟩ := ebind_ok_inv hr1
  have hlvl0e : lvl = lvl0 := by
    rw [hlvl] at hlvl0
    exact Except.ok.inj hlvl0
  subst hlvl0e
  have hls_cons : ls = lvl :: lsT := (Except.ok.inj hcons).symm
  have hBL : (sortKeyed keyed).map (fun p => natVal p.2) = ls.reverse := by
    rw [hls_eq, List.reverse_reverse]
  refine ⟨ls.reverse ++ [lvl + 1, lvl + 2], ?_, ?_, ?_, ?_,
    (sortKeyed keyed).map Prod.snd, sbf', ls.reverse, ?_, ?_, ?_, ?_, ?_⟩
  · -- names are the mapped levels
    rw [hns, hn]
    simp only [List.reverse_cons, List.map_append, List.map_reverse, List.append_assoc]
    rfl
  · -- equal lengths
    rw [hns, hfls, hn]
    simp only [List.length_reverse, List.length_cons, List.length_map]
    omega
  · -- sortedness
    rw [nondecB_iff, List.chain'_append]
    refine ⟨by rw [← hBL]; exact hchain, ?_, ?_⟩
    · rw [List.chain'_cons]
      exact ⟨by omega, List.chain'_singleton _⟩
    · intro x hx y hy
      rw [hls_cons, List.reverse_cons, List.getLast?_concat] at hx
      simp only [Option.mem_def, Option.some.injEq] at hx
      simp only [List.head?_cons, Option.mem_def, Option.some.injEq] at hy
      omega
  · -- index alignment
    simp only [List.all_eq_true, decide_eq_true_eq]
    intro p hp
    rw [hns, hfls, hn] at hp
    simp only [List.reverse_cons, List.append_assoc, List.singleton_append] at hp
    rw [zip_append_eq _ _ _ _ (by simp [hlen])] at hp
    simp only [List.mem_append] at hp
    rcases hp with hp | hp
    · rw [zip_reverse_eq _ _ (by simp [hlen]), List.mem_reverse] at hp
      exact hzip p hp
    · simp only [List.zip_cons_cons, List.zip_nil_right, List.mem_cons,
        List.not_mem_nil, or_false] at hp
      rcases hp with hp | hp
      · rw [hp]
        rfl
      · rw [hp]
        rfl
  · -- derive_backbone output
    rw [hdb, ← hpair2]
  · -- backbone lists have equal length
    have hh := mapE_ok_length (dictGet d) _ _ hbf'
    rw [hh]
  · -- each backbone feature is its dict entry
    exact hbf'
  · -- backbone levels
    rw [← hBL]
    exact hblevels
  · -- backbone levels sorted
    rw [nondecB_iff, ← hBL]
    exact hchain

/-- C3 counterexample: on the dict with keys "12" and "C3" the function
returns names [P12, P3, P4, P5], whose level sequence 12, 3, 4, 5 is not
sorted, so the returned lists are not sorted by pyramid level. -/
theorem C3_unsorted_output_cx :
    Except.map Prod.fst (__create_pyramid_features (some cpfCxDict) [] [] 256) =
      Except.ok ["P12", "P3", "P4", "P5"] ∧
    pyLevel "P12" = Except.ok 12 ∧ pyLevel "P3" = Except.ok 3 ∧
    pyLevel "P4" = Except.ok 4 ∧ pyLevel "P5" = Except.ok 5 ∧
    nondecB [12, 3, 4, 5] = false := ⟨rfl, rfl, rfl, rfl, rfl, rfl⟩

/-- C3 witness: the amended theorem applied to a two-level backbone dict with
well-formed keys, both hypotheses discharged by evaluation. -/
theorem C3_witness :
    ∃ levels : List Nat,
      cpfWitnessNames = levels.map pname ∧
      cpfWitnessFinals.length = cpfWitnessNames.length ∧
      nondecB levels = true ∧
      ((cpfWitnessNames.zip cpfWitnessFinals).all fun p =>
        decide (headName p.2 = some p.1)) = true ∧
      ∃ (sbn : List String) (sbf : List Tensor) (blevels : List Nat),
        derive_backbone cpfWitnessDict = Except.ok (sbn, sbf) ∧
        sbn.length = sbf.length ∧
        mapE (dictGet cpfWitnessDict) sbn = Except.ok sbf ∧
        mapE pyLevel sbn = Except.ok blevels ∧
        nondecB blevels = true :=
  C3_pyramid_features_invariant cpfWitnessDict [] [] 256 cpfWitnessNames
    cpfWitnessFinals (by decide) (by rfl)

end FpnUtils
